import Mathlib

/-!
# Verification of the Harvey desktop-automation core (`harvey.py`)

Shallow embedding of the perception-decision-action core of the repository:
the coordinate mapper (`_transform_coords`, `calibrate_click_position`), the
motion controller (`smooth_move_mouse`), the click entry points
(`ultra_precise_click`, `double_click`), the planner's reply parsing and
rate-limit recovery (`Harvey.think`), the command dispatcher
(`Harvey.execute`), the control loop (`Harvey.run`) and the calibration
store (`_write_env_offsets` plus the dotenv-style lookup).

Python machine-level conventions are made explicit:
* `round` is banker's rounding (round half to even), modelled by `pyRound`;
* `int(...)` truncates toward zero, modelled by `pyTrunc`;
* `max` / `min` on floats are plain comparisons, modelled by `pyMax` / `pyMin`;
* `str.strip` trims ASCII whitespace at both ends, modelled by `pyStrip`
  on `List Char`;
* `a in b` on strings is substring containment, modelled by infix tests.

Strings handled by the program are modelled as `List Char` so that prefix /
infix reasoning stays elementary.  Real numbers occurring in the program
(ratios, offsets, Bezier parameters) are modelled as exact rationals.
-/

/-- Python `round`: round half to even (banker's rounding), on exact
rational values. -/
def pyRound (q : ℚ) : ℤ :=
  if q - ⌊q⌋ < 1/2 then ⌊q⌋
  else if 1/2 < q - ⌊q⌋ then ⌊q⌋ + 1
  else if ⌊q⌋ % 2 = 0 then ⌊q⌋ else ⌊q⌋ + 1

/-- Python `int(...)` on a real value: truncation toward zero. -/
def pyTrunc (q : ℚ) : ℤ := if 0 ≤ q then ⌊q⌋ else ⌈q⌉

/-- Python `min` on two numbers. -/
def pyMin (a b : ℚ) : ℚ := if a ≤ b then a else b

/-- Python `max` on two numbers. -/
def pyMax (a b : ℚ) : ℚ := if a ≤ b then b else a

/-- `_transform_coords` (harvey.py:75-88): clamp each ratio to [0,1] via
`max(0.0, min(1.0, r))`, then map to logical points `round(r * (dim - 1))`.
The scale factor returned by `get_screen_info` is received and printed but
takes no part in the computation. -/
def transformCoords (width height : ℕ) (scale : ℚ) (xRatio yRatio : ℚ) : ℤ × ℤ :=
  let xr := pyMax 0 (pyMin 1 xRatio)
  let yr := pyMax 0 (pyMin 1 yRatio)
  (pyRound (xr * ((width : ℚ) - 1)), pyRound (yr * ((height : ℚ) - 1)))

/-- `calibrate_click_position` (harvey.py:191-198): add the parsed
`HARVEY_X_OFFSET` / `HARVEY_Y_OFFSET` values (0 on absence or parse
failure) and truncate with `int`. -/
def calibrateClickPosition (offX offY : ℚ) (p : ℤ × ℤ) : ℤ × ℤ :=
  (pyTrunc ((p.1 : ℚ) + offX), pyTrunc ((p.2 : ℚ) + offY))

/-- The non-macOS fallback of `get_screen_info` (harvey.py:68):
1920×1080 points at scale 1. -/
def screenInfoFallback : ℕ × ℕ × ℚ := (1920, 1080, 1)

lemma pyRound_bounds {q : ℚ} {n : ℤ} (h0 : 0 ≤ q) (hn : q ≤ (n : ℚ)) :
    0 ≤ pyRound q ∧ pyRound q ≤ n := by
  have hfl : 0 ≤ ⌊q⌋ := Int.floor_nonneg.mpr h0
  have hub : ⌊q⌋ ≤ n := by
    have := Int.floor_le_floor hn
    simpa using this
  unfold pyRound
  split_ifs with h1 h2 h3
  · exact ⟨hfl, hub⟩
  all_goals {
    have hhalf : (1/2 : ℚ) ≤ q - ⌊q⌋ := le_of_not_lt h1
    have hfq : (⌊q⌋ : ℚ) ≤ q := Int.floor_le q
    have hlt : (⌊q⌋ : ℚ) < (n : ℚ) := by linarith
    have hlt' : ⌊q⌋ < n := by exact_mod_cast hlt
    first
      | exact ⟨hfl, hub⟩
      | exact ⟨by omega, by omega⟩
  }

lemma pyClamp_nonneg (r : ℚ) : 0 ≤ pyMax 0 (pyMin 1 r) := by
  unfold pyMax pyMin
  split_ifs <;> linarith

lemma pyClamp_le_one (r : ℚ) : pyMax 0 (pyMin 1 r) ≤ 1 := by
  unfold pyMax pyMin
  split_ifs <;> linarith

/-- C1: For every ratio input pair, including values outside [0,1],
`_transform_coords` first clamps each component to [0,1], so the resulting
device point satisfies `0 ≤ x ≤ width-1` and `0 ≤ y ≤ height-1`; the
calibration offset of `calibrate_click_position` is only added afterwards,
by the callers. -/
theorem transform_coords_clamped (width height : ℕ) (scale xRatio yRatio : ℚ)
    (hw : 1 ≤ width) (hh : 1 ≤ height) :
    0 ≤ (transformCoords width height scale xRatio yRatio).1 ∧
    (transformCoords width height scale xRatio yRatio).1 ≤ (width : ℤ) - 1 ∧
    0 ≤ (transformCoords width height scale xRatio yRatio).2 ∧
    (transformCoords width height scale xRatio yRatio).2 ≤ (height : ℤ) - 1 := by
  have key : ∀ (r : ℚ) (d : ℕ), 1 ≤ d →
      0 ≤ pyRound (pyMax 0 (pyMin 1 r) * ((d : ℚ) - 1)) ∧
      pyRound (pyMax 0 (pyMin 1 r) * ((d : ℚ) - 1)) ≤ (d : ℤ) - 1 := by
    intro r d hd
    have hd1 : (1 : ℚ) ≤ (d : ℚ) := by exact_mod_cast hd
    have hr0 : 0 ≤ pyMax 0 (pyMin 1 r) := pyClamp_nonneg r
    have hr1 : pyMax 0 (pyMin 1 r) ≤ 1 := pyClamp_le_one r
    have h0 : 0 ≤ pyMax 0 (pyMin 1 r) * ((d : ℚ) - 1) :=
      mul_nonneg hr0 (by linarith)
    have hub : pyMax 0 (pyMin 1 r) * ((d : ℚ) - 1) ≤ (((d : ℤ) - 1 : ℤ) : ℚ) := by
      have := mul_le_of_le_one_left (b := (d : ℚ) - 1) (by linarith) hr1
      push_cast
      linarith
    exact pyRound_bounds h0 hub
  exact ⟨(key xRatio width hw).1, (key xRatio width hw).2,
    (key yRatio height hh).1, (key yRatio height hh).2⟩

/-- Closed witness for C1: the out-of-range ratio pair (1.5, -1) on the
fallback geometry lands inside the logical bounds. -/
theorem transform_coords_clamped_witness :
    (1 ≤ 1920 ∧ 1 ≤ 1080) ∧
    (0 ≤ (transformCoords 1920 1080 1 (3/2) (-1)).1 ∧
     (transformCoords 1920 1080 1 (3/2) (-1)).1 ≤ (1920 : ℤ) - 1 ∧
     0 ≤ (transformCoords 1920 1080 1 (3/2) (-1)).2 ∧
     (transformCoords 1920 1080 1 (3/2) (-1)).2 ≤ (1080 : ℤ) - 1) :=
  ⟨⟨by decide, by decide⟩,
    transform_coords_clamped 1920 1080 1 (3/2) (-1) (by decide) (by decide)⟩

lemma pyTrunc_intCast (n : ℤ) : pyTrunc ((n : ℚ)) = n := by
  unfold pyTrunc
  split_ifs <;> simp

lemma floor_half_1919 : ⌊(1919/2 : ℚ)⌋ = 959 := by norm_num [Int.floor_eq_iff]

lemma floor_half_1079 : ⌊(1079/2 : ℚ)⌋ = 539 := by norm_num [Int.floor_eq_iff]

lemma pyRound_half_1919 : pyRound (1919/2 : ℚ) = 960 := by
  unfold pyRound
  rw [floor_half_1919]
  norm_num

lemma pyRound_half_1079 : pyRound (1079/2 : ℚ) = 540 := by
  unfold pyRound
  rw [floor_half_1079]
  norm_num

lemma transform_center (s : ℚ) :
    transformCoords 1920 1080 s (1/2) (1/2) = (960, 540) := by
  show (pyRound (pyMax 0 (pyMin 1 (1/2)) * ((1920 : ℚ) - 1)),
      pyRound (pyMax 0 (pyMin 1 (1/2)) * ((1080 : ℚ) - 1))) = (960, 540)
  have hclamp : pyMax 0 (pyMin 1 (1/2 : ℚ)) = 1/2 := by
    unfold pyMax pyMin
    norm_num
  rw [hclamp, show (1/2 : ℚ) * ((1920 : ℚ) - 1) = 1919/2 by norm_num,
    show (1/2 : ℚ) * ((1080 : ℚ) - 1) = 1079/2 by norm_num,
    pyRound_half_1919, pyRound_half_1079]

lemma calibrate_zero (p : ℤ × ℤ) : calibrateClickPosition 0 0 p = p := by
  show (pyTrunc ((p.1 : ℚ) + 0), pyTrunc ((p.2 : ℚ) + 0)) = p
  rw [add_zero, add_zero, pyTrunc_intCast, pyTrunc_intCast]

/-- C2: with geometry 1920×1080, ratio (0.5, 0.5) maps to exactly
(round(0.5·1919), round(0.5·1079)) = (960, 540) under Python's banker's
rounding — a pair inside {959,960}×{539,540}; a zero calibration offset
leaves it unchanged; and the display scale factor is never applied in the
logical-to-device conversion (the result is the same for any scale). -/
theorem transform_center_exact :
    (∀ s₁ s₂ xr yr : ℚ,
        transformCoords 1920 1080 s₁ xr yr = transformCoords 1920 1080 s₂ xr yr) ∧
    transformCoords 1920 1080 2 (1/2) (1/2) = (960, 540) ∧
    calibrateClickPosition 0 0 (960, 540) = (960, 540) ∧
    ((960 : ℤ) = 959 ∨ (960 : ℤ) = 960) ∧ ((540 : ℤ) = 539 ∨ (540 : ℤ) = 540) := by
  exact ⟨fun s₁ s₂ xr yr => rfl, transform_center 2, calibrate_zero (960, 540),
    Or.inr rfl, Or.inr rfl⟩

/-! ## Motion controller: `smooth_move_mouse` (harvey.py:141-169) -/

/-- The interpolation parameter `t = i / steps` of the motion loop. -/
def smoothT (steps i : ℕ) : ℚ := (i : ℚ) / (steps : ℚ)

/-- The smoothstep easing `t_smooth = t*t*(3 - 2*t)`. -/
def smoothTs (steps i : ℕ) : ℚ :=
  smoothT steps i * smoothT steps i * (3 - 2 * smoothT steps i)

/-- `control_x = (start_x + end_x)/2 + (end_y - start_y) * 0.1`. -/
def controlX (sx sy ex ey : ℤ) : ℚ :=
  ((sx : ℚ) + (ex : ℚ)) / 2 + ((ey : ℚ) - (sy : ℚ)) * (1/10)

/-- `control_y = (start_y + end_y)/2 - (end_x - start_x) * 0.1`. -/
def controlY (sx sy ex ey : ℤ) : ℚ :=
  ((sy : ℚ) + (ey : ℚ)) / 2 - ((ex : ℚ) - (sx : ℚ)) * (1/10)

/-- The quadratic Bezier evaluation
`(1-ts)^2*a + 2*(1-ts)*ts*c + ts^2*b` used for each coordinate. -/
def bezierAt (a c b ts : ℚ) : ℚ :=
  (1 - ts)^2 * a + 2 * (1 - ts) * ts * c + ts^2 * b

/-- The point emitted at loop index `i` of `smooth_move_mouse`
(harvey.py:151-165); Python's `int(...)` truncates toward zero. -/
def smoothMovePoint (sx sy ex ey : ℤ) (steps i : ℕ) : ℤ × ℤ :=
  (pyTrunc (bezierAt (sx : ℚ) (controlX sx sy ex ey) (ex : ℚ) (smoothTs steps i)),
   pyTrunc (bezierAt (sy : ℚ) (controlY sx sy ex ey) (ey : ℚ) (smoothTs steps i)))

/-- `steps = max(10, int(distance / 15))` (harvey.py:147), with
`int(sqrt(d2)/15)` rendered exactly as `Nat.sqrt d2 / 15` (floor of the
square root, then floor division — the two floors compose). -/
def smoothMoveSteps (sx sy ex ey : ℤ) : ℕ :=
  max 10 (Nat.sqrt (((ex - sx).natAbs ^ 2 + (ey - sy).natAbs ^ 2)) / 15)

/-- `smooth_move_mouse` (harvey.py:141-169): no events without Quartz; no
events when the Euclidean distance is below 5 (equivalently the squared
distance is below 25); otherwise one move event per loop index
`i ∈ 0..steps`. -/
def smoothMovePoints (quartz : Bool) (sx sy ex ey : ℤ) : List (ℤ × ℤ) :=
  if quartz = false then []
  else if (ex - sx)^2 + (ey - sy)^2 < 25 then []
  else (List.range (smoothMoveSteps sx sy ex ey + 1)).map
    (smoothMovePoint sx sy ex ey (smoothMoveSteps sx sy ex ey))

lemma smoothTs_zero (steps : ℕ) : smoothTs steps 0 = 0 := by
  unfold smoothTs smoothT
  norm_num

lemma smoothTs_last {steps : ℕ} (h : steps ≠ 0) : smoothTs steps steps = 1 := by
  have hs : ((steps : ℚ)) ≠ 0 := Nat.cast_ne_zero.mpr h
  unfold smoothTs smoothT
  rw [div_self hs]
  norm_num

lemma bezierAt_zero (a c b : ℚ) : bezierAt a c b 0 = a := by
  unfold bezierAt
  ring

lemma bezierAt_one (a c b : ℚ) : bezierAt a c b 1 = b := by
  unfold bezierAt
  ring

lemma smoothMovePoint_zero (sx sy ex ey : ℤ) (steps : ℕ) :
    smoothMovePoint sx sy ex ey steps 0 = (sx, sy) := by
  unfold smoothMovePoint
  rw [smoothTs_zero, bezierAt_zero, bezierAt_zero, pyTrunc_intCast, pyTrunc_intCast]

lemma smoothMovePoint_last (sx sy ex ey : ℤ) {steps : ℕ} (h : steps ≠ 0) :
    smoothMovePoint sx sy ex ey steps steps = (ex, ey) := by
  unfold smoothMovePoint
  rw [smoothTs_last h, bezierAt_one, bezierAt_one, pyTrunc_intCast, pyTrunc_intCast]

lemma smoothMoveSteps_ne_zero (sx sy ex ey : ℤ) : smoothMoveSteps sx sy ex ey ≠ 0 := by
  unfold smoothMoveSteps
  omega

lemma smoothMovePoints_of_far {sx sy ex ey : ℤ}
    (h : ¬ ((ex - sx)^2 + (ey - sy)^2 < 25)) :
    smoothMovePoints true sx sy ex ey =
      (List.range (smoothMoveSteps sx sy ex ey + 1)).map
        (smoothMovePoint sx sy ex ey (smoothMoveSteps sx sy ex ey)) := by
  unfold smoothMovePoints
  simp [h]

lemma smoothMovePoints_head {sx sy ex ey : ℤ}
    (h : 25 ≤ (ex - sx)^2 + (ey - sy)^2) :
    (smoothMovePoints true sx sy ex ey).head? = some (sx, sy) := by
  rw [smoothMovePoints_of_far (not_lt.mpr h), List.head?_map,
    List.range_succ_eq_map]
  simp [smoothMovePoint_zero]

lemma smoothMovePoints_getLast {sx sy ex ey : ℤ}
    (h : 25 ≤ (ex - sx)^2 + (ey - sy)^2) :
    (smoothMovePoints true sx sy ex ey).getLast? = some (ex, ey) := by
  rw [smoothMovePoints_of_far (not_lt.mpr h), List.getLast?_map,
    List.range_succ, List.getLast?_concat]
  simp [smoothMovePoint_last sx sy ex ey (smoothMoveSteps_ne_zero sx sy ex ey)]

/-- C3 (amended): when the squared Euclidean distance between start and end
is below 25 (distance < 5) the motion controller emits zero move events;
when it is at least 25 (distance ≥ 5) the first emitted point equals the
start exactly (not the start's immediate successor) and the last emitted
point equals the destination exactly. -/
theorem smooth_move_endpoints (quartz : Bool) (sx sy ex ey : ℤ)
    (hq : quartz = true) :
    ((ex - sx)^2 + (ey - sy)^2 < 25 → smoothMovePoints quartz sx sy ex ey = []) ∧
    (25 ≤ (ex - sx)^2 + (ey - sy)^2 →
      (smoothMovePoints quartz sx sy ex ey).head? = some (sx, sy) ∧
      (smoothMovePoints quartz sx sy ex ey).getLast? = some (ex, ey)) := by
  subst hq
  refine ⟨fun h => ?_, fun h => ⟨smoothMovePoints_head h, smoothMovePoints_getLast h⟩⟩
  unfold smoothMovePoints
  simp [h]

/-- Closed witness for C3: the short move (0,0)→(1,1) emits nothing; the
move (0,0)→(10,0) starts at (0,0) and ends exactly at (10,0). -/
theorem smooth_move_endpoints_witness :
    smoothMovePoints true 0 0 1 1 = [] ∧
    (smoothMovePoints true 0 0 10 0).head? = some (0, 0) ∧
    (smoothMovePoints true 0 0 10 0).getLast? = some (10, 0) :=
  ⟨(smooth_move_endpoints true 0 0 1 1 rfl).1 (by norm_num),
   ((smooth_move_endpoints true 0 0 10 0 rfl).2 (by norm_num)).1,
   ((smooth_move_endpoints true 0 0 10 0 rfl).2 (by norm_num)).2⟩

/-- C3 counterexample: for start (0,0) and end (10,0) — Euclidean distance
10 ≥ 5 — the first emitted point is the start (0,0) itself, not the start's
immediate successor: the loop begins at i = 0 where the Bezier evaluates to
the start point exactly. -/
theorem smooth_move_first_point_is_start :
    25 ≤ ((10 : ℤ) - 0)^2 + ((0 : ℤ) - 0)^2 ∧
    (smoothMovePoints true 0 0 10 0).head? = some (0, 0) :=
  ⟨by norm_num, smoothMovePoints_head (by norm_num)⟩

/-! ## Click entry points: `ultra_precise_click` (harvey.py:276-321) and
`double_click` (harvey.py:331-367) -/

/-- Abstract input events issued by the click entry points.  `.move`
records one `smooth_move_mouse` call (its start and destination);
`.keyTap` records one `hotkey` key press (Quartz keycode 36 is
return/enter). -/
inductive HEvent where
  | keyTap (code : ℕ)
  | move (fromX fromY toX toY : ℤ)
  | mouseDown (x y : ℤ)
  | mouseUp (x y : ℤ)
deriving DecidableEq

/-- The drift test `abs(final_x - x) > tol or abs(final_y - y) > tol`. -/
def driftExceeds (p target : ℤ × ℤ) (tol : ℤ) : Prop :=
  tol < |p.1 - target.1| ∨ tol < |p.2 - target.2|

instance (p target : ℤ × ℤ) (tol : ℤ) : Decidable (driftExceeds p target tol) :=
  inferInstanceAs (Decidable (_ ∨ _))

/-- `ultra_precise_click` (harvey.py:276-321): without Quartz only a print;
with Spotlight frontmost a single `hotkey("return")` instead of any mouse
event; otherwise move to the calibrated target, re-query the pointer, issue
one corrective move when the drift exceeds 5 px on either axis, and click
(down then up) at the position of a final query.  The successive
`get_current_mouse_position()` results are supplied by the oracle `q`. -/
def ultraPreciseClickEvents (quartz spotlight : Bool) (width height : ℕ)
    (scale offX offY xRatio yRatio : ℚ) (q : ℕ → ℤ × ℤ) : List HEvent :=
  if quartz = false then []
  else if spotlight then [.keyTap 36]
  else
    let p := calibrateClickPosition offX offY
      (transformCoords width height scale xRatio yRatio)
    [.move (q 0).1 (q 0).2 p.1 p.2] ++
    (if driftExceeds (q 1) p 5 then [.move (q 1).1 (q 1).2 p.1 p.2] else []) ++
    [.mouseDown (q 2).1 (q 2).2, .mouseUp (q 2).1 (q 2).2]

/-- `double_click` (harvey.py:331-367): the body never consults the
Spotlight detector (the `spotlight` flag is accepted to make that
explicit); tolerance is 2 px and both click pairs land on the computed
target, not on a queried position. -/
def doubleClickEvents (quartz spotlight : Bool) (width height : ℕ)
    (scale offX offY xRatio yRatio : ℚ) (q : ℕ → ℤ × ℤ) : List HEvent :=
  if quartz = false then []
  else
    let p := calibrateClickPosition offX offY
      (transformCoords width height scale xRatio yRatio)
    [.move (q 0).1 (q 0).2 p.1 p.2] ++
    (if driftExceeds (q 1) p 2 then [.move (q 1).1 (q 1).2 p.1 p.2] else []) ++
    [.mouseDown p.1 p.2, .mouseUp p.1 p.2, .mouseDown p.1 p.2, .mouseUp p.1 p.2]

/-- Recognizer for move events. -/
def isMoveEv : HEvent → Bool
  | .move _ _ _ _ => true
  | _ => false

/-- Recognizer for mouse click events. -/
def isClickEv : HEvent → Bool
  | .mouseDown _ _ => true
  | .mouseUp _ _ => true
  | _ => false

/-- C7 (amended): before every single click the Spotlight detector is
consulted: with the overlay frontmost `ultra_precise_click` issues exactly
one confirm (return) key press and no mouse event, and only without the
overlay does it issue mouse events.  The double-click path, however, never
consults the detector: its events are the same whatever the overlay state. -/
theorem spotlight_guard :
    (∀ (width height : ℕ) (scale offX offY xRatio yRatio : ℚ) (q : ℕ → ℤ × ℤ),
      ultraPreciseClickEvents true true width height scale offX offY xRatio yRatio q =
        [HEvent.keyTap 36]) ∧
    (∀ (width height : ℕ) (scale offX offY xRatio yRatio : ℚ) (q : ℕ → ℤ × ℤ),
      HEvent.mouseDown (q 2).1 (q 2).2 ∈
        ultraPreciseClickEvents true false width height scale offX offY xRatio yRatio q) ∧
    (∀ (sp₁ sp₂ : Bool) (width height : ℕ) (scale offX offY xRatio yRatio : ℚ)
        (q : ℕ → ℤ × ℤ),
      doubleClickEvents true sp₁ width height scale offX offY xRatio yRatio q =
        doubleClickEvents true sp₂ width height scale offX offY xRatio yRatio q) := by
  refine ⟨fun _ _ _ _ _ _ _ _ => rfl, fun w h s ox oy xr yr q => ?_,
    fun _ _ _ _ _ _ _ _ _ _ => rfl⟩
  unfold ultraPreciseClickEvents
  simp

/-- C7 counterexample: with the Spotlight overlay frontmost, a double click
at ratio (0.5, 0.5) on 1920×1080 with zero offsets still issues mouse-down
events at (960, 540) and never a confirm key press — the claim that every
click substitutes Enter when the overlay is frontmost fails on
`double_click`. -/
theorem double_click_ignores_spotlight :
    HEvent.mouseDown 960 540 ∈
      doubleClickEvents true true 1920 1080 1 0 0 (1/2) (1/2) (fun _ => (0, 0)) ∧
    ∀ c, HEvent.keyTap c ∉
      doubleClickEvents true true 1920 1080 1 0 0 (1/2) (1/2) (fun _ => (0, 0)) := by
  have hp : calibrateClickPosition 0 0 (transformCoords 1920 1080 1 (1/2) (1/2)) =
      (960, 540) := by rw [transform_center, calibrate_zero]
  have hev : doubleClickEvents true true 1920 1080 1 0 0 (1/2) (1/2) (fun _ => (0, 0)) =
      [.move 0 0 960 540, .move 0 0 960 540, .mouseDown 960 540, .mouseUp 960 540,
       .mouseDown 960 540, .mouseUp 960 540] := by
    unfold doubleClickEvents
    rw [if_neg (by simp)]
    simp only [hp]
    rw [if_pos (by unfold driftExceeds; norm_num)]
    rfl
  rw [hev]
  refine ⟨by simp, fun c => by simp⟩

/-- C8: after the pre-click move, the pointer is re-queried; the move-event
count is 2 exactly when the drift from the target exceeds the tolerance
(5 px for single click, 2 px for double click) on either axis and 1
otherwise — so at most one corrective move — and in both entry points every
move event precedes every click event. -/
theorem click_drift_correction (width height : ℕ)
    (scale offX offY xRatio yRatio : ℚ) (q : ℕ → ℤ × ℤ) :
    ((ultraPreciseClickEvents true false width height scale offX offY xRatio yRatio q).countP
        isMoveEv =
      if driftExceeds (q 1)
          (calibrateClickPosition offX offY
            (transformCoords width height scale xRatio yRatio)) 5
        then 2 else 1) ∧
    ((ultraPreciseClickEvents true false width height scale offX offY xRatio yRatio q).countP
        isMoveEv ≤ 2) ∧
    (((ultraPreciseClickEvents true false width height scale offX offY xRatio yRatio
        q).dropWhile isMoveEv).countP isMoveEv = 0) ∧
    ((doubleClickEvents true false width height scale offX offY xRatio yRatio q).countP
        isMoveEv =
      if driftExceeds (q 1)
          (calibrateClickPosition offX offY
            (transformCoords width height scale xRatio yRatio)) 2
        then 2 else 1) ∧
    ((doubleClickEvents true false width height scale offX offY xRatio yRatio q).countP
        isMoveEv ≤ 2) ∧
    (((doubleClickEvents true false width height scale offX offY xRatio yRatio
        q).dropWhile isMoveEv).countP isMoveEv = 0) := by
  unfold ultraPreciseClickEvents doubleClickEvents
  set p := calibrateClickPosition offX offY
    (transformCoords width height scale xRatio yRatio) with hp
  by_cases h5 : driftExceeds (q 1) p 5 <;> by_cases h2 : driftExceeds (q 1) p 2 <;>
    simp [h5, h2, isMoveEv, List.countP_cons, List.dropWhile]

/-! ## Control loop: `Harvey.run` (harvey.py:931-975) -/

/-- The remaining iterations of `for step in range(20)` from step `step`
with `fuel` iterations left.  The environment `env` gives each tick's
outcome: `none` when `capture_to_bytes()` returned nothing (the loop
breaks before thinking or executing), `some done` when capture succeeded
and `execute(think(...))` returned `done`.  The result lists the steps at
which a command was executed. -/
def runAux (env : ℕ → Option Bool) : ℕ → ℕ → List ℕ
  | 0, _ => []
  | fuel + 1, step =>
    match env step with
    | none => []
    | some done => step :: (if done then [] else runAux env fuel (step + 1))

/-- `Harvey.run` (harvey.py:931-975): `for step in range(20)` starting at
step 0, breaking on capture failure or a `done` execution. -/
def harveyRun (env : ℕ → Option Bool) : List ℕ := runAux env 20 0

lemma runAux_succ_none {env : ℕ → Option Bool} {n s : ℕ} (h : env s = none) :
    runAux env (n + 1) s = [] := by
  rw [runAux, h]

lemma runAux_succ_true {env : ℕ → Option Bool} {n s : ℕ} (h : env s = some true) :
    runAux env (n + 1) s = [s] := by
  rw [runAux, h]
  rfl

lemma runAux_succ_false {env : ℕ → Option Bool} {n s : ℕ} (h : env s = some false) :
    runAux env (n + 1) s = s :: runAux env n (s + 1) := by
  rw [runAux, h]
  rfl

lemma runAux_length (env : ℕ → Option Bool) :
    ∀ (fuel s : ℕ), (runAux env fuel s).length ≤ fuel := by
  intro fuel
  induction fuel with
  | zero => intro s; simp [runAux]
  | succ n ih =>
    intro s
    cases h : env s with
    | none => simp [runAux_succ_none h]
    | some b =>
      cases b with
      | false =>
        rw [runAux_succ_false h]
        simpa using ih (s + 1)
      | true => simp [runAux_succ_true h]

lemma runAux_mem (env : ℕ → Option Bool) :
    ∀ (fuel s j : ℕ), j ∈ runAux env fuel s ↔
      s ≤ j ∧ j < s + fuel ∧ env j ≠ none ∧
        ∀ i, s ≤ i → i < j → env i = some false := by
  intro fuel
  induction fuel with
  | zero =>
    intro s j
    simp only [runAux, List.not_mem_nil, false_iff]
    rintro ⟨h1, h2, -, -⟩
    omega
  | succ n ih =>
    intro s j
    cases h : env s with
    | none =>
      rw [runAux_succ_none h]
      simp only [List.not_mem_nil, false_iff]
      rintro ⟨h1, h2, h3, h4⟩
      rcases eq_or_lt_of_le h1 with rfl | hlt
      · exact h3 h
      · have := h4 s le_rfl hlt
        rw [h] at this
        cases this
    | some b =>
      cases b with
      | true =>
        rw [runAux_succ_true h]
        simp only [List.mem_singleton]
        constructor
        · rintro rfl
          exact ⟨le_rfl, by omega, by simp [h], fun i hi hij => by omega⟩
        · rintro ⟨h1, h2, h3, h4⟩
          rcases eq_or_lt_of_le h1 with rfl | hlt
          · rfl
          · have := h4 s le_rfl hlt
            rw [h] at this
            cases this
      | false =>
        rw [runAux_succ_false h]
        simp only [List.mem_cons, ih]
        constructor
        · rintro (rfl | ⟨h1, h2, h3, h4⟩)
          · exact ⟨le_rfl, by omega, by simp [h], fun i hi hij => by omega⟩
          · refine ⟨by omega, by omega, h3, fun i hi hij => ?_⟩
            rcases eq_or_lt_of_le hi with rfl | hlt
            · exact h
            · exact h4 i (by omega) hij
        · rintro ⟨h1, h2, h3, h4⟩
          rcases eq_or_lt_of_le h1 with rfl | hlt
          · exact Or.inl rfl
          · exact Or.inr ⟨by omega, by omega, h3, fun i hi hij => h4 i (by omega) hij⟩

/-- C4: the control loop starts at step 0, performs at most 20 iterations,
executes no command at (or after) a tick whose capture fails, and executes
no command at any step after an execution returned done; every executed
step is below 20. -/
theorem harvey_run_loop (env : ℕ → Option Bool) :
    (harveyRun env).length ≤ 20 ∧
    (∀ b, env 0 = some b → (harveyRun env).head? = some 0) ∧
    (∀ k, k ∈ harveyRun env → k < 20) ∧
    (∀ k, env k = none → ∀ j, k ≤ j → j ∉ harveyRun env) ∧
    (∀ k, env k = some true → ∀ j, k < j → j ∉ harveyRun env) := by
  refine ⟨runAux_length env 20 0, ?_, ?_, ?_, ?_⟩
  · intro b hb
    unfold harveyRun
    rw [runAux, hb]
    rfl
  · intro k hk
    have := (runAux_mem env 20 0 k).mp hk
    omega
  · intro k hk j hkj hj
    have hm := (runAux_mem env 20 0 j).mp hj
    rcases eq_or_lt_of_le hkj with rfl | hlt
    · exact hm.2.2.1 hk
    · have := hm.2.2.2 k (by omega) hlt
      rw [hk] at this
      cases this
  · intro k hk j hkj hj
    have hm := (runAux_mem env 20 0 j).mp hj
    have := hm.2.2.2 k (by omega) hkj
    rw [hk] at this
    cases this

/-- An example environment for the control loop: capture succeeds on every
tick, the command at step 1 is done, all others are not. -/
def demoEnv : ℕ → Option Bool := fun k => if k = 1 then some true else some false

/-- Closed witness for C4 on `demoEnv`: the loop runs within budget, starts
at step 0, and executes nothing after the done at step 1. -/
theorem harvey_run_loop_witness :
    (harveyRun demoEnv).length ≤ 20 ∧
    (harveyRun demoEnv).head? = some 0 ∧
    2 ∉ harveyRun demoEnv :=
  ⟨(harvey_run_loop demoEnv).1,
   (harvey_run_loop demoEnv).2.1 false rfl,
   (harvey_run_loop demoEnv).2.2.2.2 1 rfl 2 (by decide)⟩

/-! ## Command dispatcher: `Harvey.execute` (harvey.py:666-766) -/

/-- The recognized command prefixes of `Harvey.execute`'s dispatch chain
other than `done` (harvey.py:671-757), in source order: `open_app`,
`web_search`, `move_mouse`, `left_click`, `double_click`, `hover`,
`bulk_type`, `type_text`, `scroll`, `hotkey`, `wait`, `focus_address_bar`.
Every one of these branches ends in `False` (an explicit `return False` or
the fall-through), so their relative order does not affect the dispatcher's
return value. -/
def commandKeys : List (List Char) :=
  ["open_app".toList, "web_search".toList, "move_mouse".toList,
   "left_click".toList, "double_click".toList, "hover".toList,
   "bulk_type".toList, "type_text".toList, "scroll".toList,
   "hotkey".toList, "wait".toList, "focus_address_bar".toList]

/-- The `try` body of `Harvey.execute` (harvey.py:669-761): the action text
is matched by `startswith` against the command prefixes; every recognized
non-`done` branch performs its side effect — which may raise, modelled by
`raisesErr` — and yields `False`; the `done` branch yields `True` with no
fallible call; an unrecognized line falls through to `False`. -/
def executeBody (action : List Char) (raisesErr : Bool) : Except Unit Bool :=
  if commandKeys.any (fun k => k.isPrefixOf action) then
    if raisesErr then .error () else .ok false
  else if ("done".toList).isPrefixOf action then .ok true
  else .ok false

/-- `Harvey.execute` (harvey.py:666-766): the `except` arm prints the
error and control falls through to the final `return False`. -/
def harveyExecute (action : List Char) (raisesErr : Bool) : Bool :=
  match executeBody action raisesErr with
  | .ok b => b
  | .error _ => false

lemma prefix_disjoint {p q l : List Char}
    (hp : p.isPrefixOf l = true) (h1 : q.isPrefixOf p = false)
    (h2 : p.isPrefixOf q = false) : q.isPrefixOf l = false := by
  by_contra h
  rw [Bool.not_eq_false] at h
  rcases List.prefix_or_prefix_of_prefix (List.isPrefixOf_iff_prefix.mp h)
      (List.isPrefixOf_iff_prefix.mp hp) with hc | hc
  · rw [List.isPrefixOf_iff_prefix.mpr hc] at h1
    cases h1
  · rw [List.isPrefixOf_iff_prefix.mpr hc] at h2
    cases h2

/-- C10: `Harvey.execute` never propagates an error raised during command
execution (for either value of `raisesErr` it returns a boolean), and it
returns `True` exactly when the action text starts with `done`; every
other line, recognized command or not, yields `False`. -/
theorem execute_done_iff (action : List Char) (raisesErr : Bool) :
    harveyExecute action raisesErr = true ↔ ("done".toList).isPrefixOf action = true := by
  unfold harveyExecute executeBody
  by_cases hk : commandKeys.any (fun k => k.isPrefixOf action) = true
  · rcases List.any_eq_true.mp hk with ⟨k, hk1, hk2⟩
    have hdis : ∀ k ∈ commandKeys, ("done".toList).isPrefixOf k = false ∧
        k.isPrefixOf ("done".toList) = false := by decide
    have hd : ("done".toList).isPrefixOf action = false :=
      prefix_disjoint hk2 (hdis k hk1).1 (hdis k hk1).2
    rw [if_pos hk]
    refine iff_of_false ?_ (by rw [hd]; decide)
    cases raisesErr <;> simp
  · rw [if_neg hk]
    by_cases hdone : ("done".toList).isPrefixOf action = true
    · rw [if_pos hdone]
      exact iff_of_true rfl hdone
    · rw [if_neg hdone]
      exact iff_of_false (by simp) hdone

/-! ## Planner rate-limit recovery: the `except` arm of `Harvey.think`
(harvey.py:642-664) -/

/-- Python `s.lower()`. -/
def pyLower (s : List Char) : List Char := s.map Char.toLower

/-- Python `needle in hay` on strings: substring containment. -/
def pyIn (needle hay : List Char) : Bool := decide (needle <:+: hay)

/-- The sleep performed by the rate-limit arm (harvey.py:650-657): when the
error message carries a `Please retry in <d>s` duration, `d + 1` seconds
(one second of buffer); otherwise a fixed 10 seconds. -/
def rateLimitSleep (retryAfter : Option ℚ) : ℚ :=
  match retryAfter with
  | some d => d + 1
  | none => 10

/-- The fallback action returned by the rate-limit arm without re-invoking
the model (harvey.py:659-664): the new-tab hotkey when the lowered task
text contains `safari` or `browser` AND contains `search`; in every other
case control reaches the trailing `return "done()"`. -/
def rateLimitFallback (task : List Char) : List Char :=
  if (pyIn ("safari".toList) (pyLower task) || pyIn ("browser".toList) (pyLower task)) &&
      pyIn ("search".toList) (pyLower task)
  then ("hotkey(\"cmd+t\")").toList
  else ("done()").toList

/-- C5 (amended): on a recognized rate-limit error the planner sleeps
`d + 1` seconds when the message carries a retry-after duration `d` and a
fixed 10 seconds otherwise, then returns exactly one fallback action for
the current step without re-invoking the reasoning collaborator: the
new-browser-tab hotkey precisely when the task text mentions a
safari/browser keyword and the search keyword together, otherwise
`done()`. -/
theorem rate_limit_recovery (task : List Char) (d : ℚ) :
    rateLimitSleep (some d) = d + 1 ∧
    rateLimitSleep none = 10 ∧
    (rateLimitFallback task = ("hotkey(\"cmd+t\")").toList ∨
      rateLimitFallback task = ("done()").toList) ∧
    (rateLimitFallback task = ("hotkey(\"cmd+t\")").toList ↔
      ((pyIn ("safari".toList) (pyLower task) ||
          pyIn ("browser".toList) (pyLower task)) &&
        pyIn ("search".toList) (pyLower task)) = true) := by
  refine ⟨rfl, rfl, ?_, ?_⟩
  · unfold rateLimitFallback
    split_ifs
    · exact Or.inl rfl
    · exact Or.inr rfl
  · unfold rateLimitFallback
    split_ifs with h
    · exact iff_of_true rfl h
    · exact iff_of_false (fun hcon => absurd hcon (by decide)) h

/-- C5 counterexample: the task "search the web" mentions the search
keyword — one of the browser/search keywords — yet the rate-limit fallback
is `done()`, not the new-browser-tab hotkey, because the code additionally
requires a safari/browser keyword. -/
theorem rate_limit_fallback_needs_browser_keyword :
    pyIn ("search".toList) (pyLower ("search the web").toList) = true ∧
    rateLimitFallback ("search the web").toList = ("done()").toList ∧
    rateLimitFallback ("search the web").toList ≠ ("hotkey(\"cmd+t\")").toList := by
  refine ⟨by decide, by decide, by decide⟩

/-! ## Planner reply parsing: the success path of `Harvey.think`
(harvey.py:598-640) -/

/-- ASCII whitespace recognized by Python `str.strip`. -/
def isPySpace (c : Char) : Bool :=
  c = ' ' || c = '\t' || c = '\n' || c = '\r' || c = '\x0b' || c = '\x0c'

/-- Python `s.strip()`: drop leading and trailing whitespace. -/
def pyStrip (s : List Char) : List Char :=
  ((s.dropWhile isPySpace).reverse.dropWhile isPySpace).reverse

/-- The known command-name tokens of the fallback scan (harvey.py:624). -/
def cmdTokens : List (List Char) :=
  ["left_click".toList, "type_text".toList, "bulk_type".toList,
   "hotkey".toList, "done".toList, "wait".toList, "scroll".toList]

/-- `any(cmd in line for cmd in [...])` (harvey.py:624). -/
def hasCmdToken (line : List Char) : Bool := cmdTokens.any (fun c => pyIn c line)

/-- The line-scanning loop of `Harvey.think` (harvey.py:606-626).  Each
line is stripped; `See:`/`Think:` lines record their content (the scan
carries those strings because the fallback branch is guarded by their
truthiness, i.e. non-emptiness); the scan returns (`break`s) at the first
`Action:`-labelled line, plain or bold variant; while no see/think content
has been captured, a non-empty line that does not start with `**` and
contains a known command token is returned as the action line.  `none`
means the loop ended without extracting an action.  (The bold `Think`
branch slices `line[9:]` in the source although its label has 10
characters; the model reproduces that slice.) -/
def parseLines : List (List Char) → List Char → List Char → Option (List Char)
  | [], _, _ => none
  | line :: rest, seeLine, thinkLine =>
    let l := pyStrip line
    if ("See:".toList).isPrefixOf l then
      parseLines rest (pyStrip (l.drop 4)) thinkLine
    else if ("Think:".toList).isPrefixOf l then
      parseLines rest seeLine (pyStrip (l.drop 6))
    else if ("Action:".toList).isPrefixOf l then some (pyStrip (l.drop 7))
    else if ("**See:**".toList).isPrefixOf l then
      parseLines rest (pyStrip (l.drop 8)) thinkLine
    else if ("**Think:**".toList).isPrefixOf l then
      parseLines rest seeLine (pyStrip (l.drop 9))
    else if ("**Action:**".toList).isPrefixOf l then some (pyStrip (l.drop 11))
    else if seeLine.isEmpty && thinkLine.isEmpty && !l.isEmpty &&
        !(("**".toList).isPrefixOf l) && hasCmdToken l then some l
    else parseLines rest seeLine thinkLine

/-- The backtick character stripped from the action line (harvey.py:630). -/
def backtickChar : Char := Char.ofNat 96

/-- `Harvey.think`'s reply handling (harvey.py:598-640): split the reply
text on newlines, scan the lines, then clean the extracted action (remove
backticks, strip) and default to `wait(1000)` when nothing usable was
extracted. -/
def thinkReply (text : List Char) : List Char :=
  match parseLines (text.splitOn '\n') [] [] with
  | none => ("wait(1000)").toList
  | some a =>
    let c := pyStrip (a.filter (fun ch => ch ≠ backtickChar))
    if c.isEmpty then ("wait(1000)").toList else c

lemma not_prefix_of_not_prefix_trans {p q l : List Char}
    (hpq : p <+: q) (h : p.isPrefixOf l = false) : q.isPrefixOf l = false := by
  by_contra hb
  rw [Bool.not_eq_false] at hb
  have : p.isPrefixOf l = true :=
    List.isPrefixOf_iff_prefix.mpr (hpq.trans (List.isPrefixOf_iff_prefix.mp hb))
  rw [h] at this
  cases this

/-- C6 (amended): reply parsing stops at the first `Action:` line found —
plain or bold-markup variant — ignoring everything after it; if no
`Action:` label is found, a remaining line containing a known command-name
token is treated as the action line only while no `See:`/`Think:` content
has yet been captured; and when no action can be extracted at all the
planner returns the default `wait(1000)` step. -/
theorem think_parse_policy :
    (∀ (line : List Char) (rest : List (List Char)) (seeL thinkL : List Char),
      ("Action:".toList).isPrefixOf (pyStrip line) = true →
      parseLines (line :: rest) seeL thinkL = some (pyStrip ((pyStrip line).drop 7))) ∧
    (∀ (line : List Char) (rest : List (List Char)) (seeL thinkL : List Char),
      ("**Action:**".toList).isPrefixOf (pyStrip line) = true →
      parseLines (line :: rest) seeL thinkL = some (pyStrip ((pyStrip line).drop 11))) ∧
    (∀ (line : List Char) (rest : List (List Char)),
      ("See:".toList).isPrefixOf (pyStrip line) = false →
      ("Think:".toList).isPrefixOf (pyStrip line) = false →
      ("Action:".toList).isPrefixOf (pyStrip line) = false →
      ("**".toList).isPrefixOf (pyStrip line) = false →
      (pyStrip line).isEmpty = false →
      hasCmdToken (pyStrip line) = true →
      parseLines (line :: rest) [] [] = some (pyStrip line)) ∧
    (∀ text : List Char,
      parseLines (text.splitOn '\n') [] [] = none →
      thinkReply text = ("wait(1000)").toList) := by
  refine ⟨?_, ?_, ?_, ?_⟩
  · intro line rest seeL thinkL h
    have hSee := prefix_disjoint (q := "See:".toList) h (by decide) (by decide)
    have hThink := prefix_disjoint (q := "Think:".toList) h (by decide) (by decide)
    simp only [parseLines]
    rw [if_neg (by rw [hSee]; decide), if_neg (by rw [hThink]; decide), if_pos h]
  · intro line rest seeL thinkL h
    have hSee := prefix_disjoint (q := "See:".toList) h (by decide) (by decide)
    have hThink := prefix_disjoint (q := "Think:".toList) h (by decide) (by decide)
    have hAct := prefix_disjoint (q := "Action:".toList) h (by decide) (by decide)
    have hbSee := prefix_disjoint (q := "**See:**".toList) h (by decide) (by decide)
    have hbThink := prefix_disjoint (q := "**Think:**".toList) h (by decide) (by decide)
    simp only [parseLines]
    rw [if_neg (by rw [hSee]; decide), if_neg (by rw [hThink]; decide),
      if_neg (by rw [hAct]; decide), if_neg (by rw [hbSee]; decide),
      if_neg (by rw [hbThink]; decide), if_pos h]
  · intro line rest h1 h2 h3 h4 h5 h6
    have hbSee := not_prefix_of_not_prefix_trans
      (p := "**".toList) (q := "**See:**".toList) (by decide) h4
    have hbThink := not_prefix_of_not_prefix_trans
      (p := "**".toList) (q := "**Think:**".toList) (by decide) h4
    have hbAct := not_prefix_of_not_prefix_trans
      (p := "**".toList) (q := "**Action:**".toList) (by decide) h4
    simp only [parseLines]
    rw [if_neg (by rw [h1]; decide), if_neg (by rw [h2]; decide),
      if_neg (by rw [h3]; decide), if_neg (by rw [hbSee]; decide),
      if_neg (by rw [hbThink]; decide), if_neg (by rw [hbAct]; decide),
      if_pos (by rw [h4, h5, h6]; decide)]
  · intro text h
    unfold thinkReply
    rw [h]

/-- Closed witness for C6: a reply whose first line carries the `Action:`
label parses to that action, with the following line ignored. -/
theorem think_parse_policy_witness :
    ("Action:".toList).isPrefixOf (pyStrip ("Action: done()").toList) = true ∧
    parseLines [("Action: done()").toList, ("ignored garbage").toList] [] [] =
      some (("done()").toList) := by
  refine ⟨by decide, ?_⟩
  rw [think_parse_policy.1 (("Action: done()").toList) [("ignored garbage").toList]
    [] [] (by decide)]
  decide

/-- C6 counterexample: the reply "See: desktop\nleft_click(0.5, 0.5)" has
no `Action:` label, and its second line contains the known command token
`left_click`; the claim says that line becomes the action line, yet the
parser returns the default `wait(1000)` — the token fallback is disabled
once a `See:` line has been captured. -/
theorem think_parse_token_after_see :
    hasCmdToken (("left_click(0.5, 0.5)").toList) = true ∧
    thinkReply (("See: desktop\nleft_click(0.5, 0.5)").toList) =
      ("wait(1000)").toList := by
  refine ⟨by decide, by decide⟩

/-! ## Calibration store: `_write_env_offsets` (harvey.py:200-227) and the
dotenv-style lookup feeding `calibrate_click_position` (harvey.py:191-198) -/

/-- `set_or_replace` (harvey.py:208-217): replace the first line whose
stripped form starts with `key=`; when no line matches, append
`key=value`. -/
def setOrReplace (lines : List (List Char)) (key value : List Char) : List (List Char) :=
  match lines with
  | [] => [key ++ '=' :: value]
  | line :: rest =>
    if (key ++ ['=']).isPrefixOf (pyStrip line) then (key ++ '=' :: value) :: rest
    else line :: setOrReplace rest key value

/-- The persisted x-offset key. -/
def xOffsetKey : List Char := ("HARVEY_X_OFFSET").toList

/-- The persisted y-offset key. -/
def yOffsetKey : List Char := ("HARVEY_Y_OFFSET").toList

/-- The decimal string `str(int(v))` written for an offset value. -/
def intChars (n : ℤ) : List Char := (toString n).toList

/-- `_write_env_offsets` (harvey.py:200-227): upsert both offset keys into
the `.env` lines (re-joining with a trailing newline does not change the
line list). -/
def writeEnvOffsets (lines : List (List Char)) (offX offY : ℤ) : List (List Char) :=
  setOrReplace (setOrReplace lines xOffsetKey (intChars offX)) yOffsetKey (intChars offY)

/-- Modelled from the spec: the load side of the calibration store is
`load_dotenv` parsing `.env` into the environment read by `os.getenv` in
`calibrate_click_position`; `python-dotenv` is an external library absent
from the repository, so its lookup is modelled from the spec's contract —
a "line-oriented `KEY=value`" file: the first line starting with `key=`
supplies the value after the `=`. -/
def envLookup (lines : List (List Char)) (key : List Char) : Option (List Char) :=
  match lines with
  | [] => none
  | line :: rest =>
    if (key ++ ['=']).isPrefixOf line then some (line.drop (key.length + 1))
    else envLookup rest key

/-- A line that `set_or_replace` treats as holding one of the two offset
keys. -/
def isOffsetLine (line : List Char) : Bool :=
  (xOffsetKey ++ ['=']).isPrefixOf (pyStrip line) ||
  (yOffsetKey ++ ['=']).isPrefixOf (pyStrip line)

lemma pyStrip_keyval (c : Char) (ks v : List Char) (hc : isPySpace c = false) :
    pyStrip ((c :: ks) ++ '=' :: v) =
      (c :: ks) ++ '=' :: (v.reverse.dropWhile isPySpace).reverse := by
  unfold pyStrip
  rw [show ((c :: ks) ++ '=' :: v) = c :: (ks ++ '=' :: v) by simp]
  rw [List.dropWhile_cons, if_neg (by rw [hc]; decide)]
  rw [show (c :: (ks ++ '=' :: v)).reverse =
    v.reverse ++ ('=' :: (ks.reverse ++ [c])) by simp]
  rw [List.dropWhile_append]
  by_cases he : (v.reverse.dropWhile isPySpace).isEmpty = true
  · rw [if_pos (by rw [he])]
    rw [List.dropWhile_cons, if_neg (by decide)]
    rw [List.isEmpty_iff.mp he]
    simp
  · rw [if_neg (by rw [Bool.not_eq_true] at he ⊢; rw [he])]
    simp

lemma raw_match_strip_match {c : Char} {ks line : List Char}
    (hc : isPySpace c = false)
    (h : ((c :: ks) ++ ['=']).isPrefixOf line = true) :
    ((c :: ks) ++ ['=']).isPrefixOf (pyStrip line) = true := by
  obtain ⟨t, ht⟩ := List.isPrefixOf_iff_prefix.mp h
  rw [← ht, show ((c :: ks) ++ ['=']) ++ t = (c :: ks) ++ '=' :: t from by simp]
  rw [pyStrip_keyval c ks t hc]
  exact List.isPrefixOf_iff_prefix.mpr
    ⟨(List.dropWhile isPySpace t.reverse).reverse, by simp⟩

lemma envLookup_keyval (key v : List Char) :
    envLookup [key ++ '=' :: v] key = some v := by
  simp only [envLookup]
  rw [if_pos (List.isPrefixOf_iff_prefix.mpr ⟨v, by simp⟩)]
  congr 1
  rw [show key ++ '=' :: v = (key ++ ['=']) ++ v from by simp,
    show key.length + 1 = (key ++ ['=']).length from by simp]
  exact List.drop_left _ _

lemma envLookup_setOrReplace {c : Char} {ks : List Char}
    (hc : isPySpace c = false) (lines : List (List Char)) (v : List Char) :
    envLookup (setOrReplace lines (c :: ks) v) (c :: ks) = some v := by
  induction lines with
  | nil =>
    simp only [setOrReplace]
    exact envLookup_keyval (c :: ks) v
  | cons line rest ih =>
    simp only [setOrReplace]
    by_cases hm : ((c :: ks) ++ ['=']).isPrefixOf (pyStrip line) = true
    · rw [if_pos hm]
      simp only [envLookup]
      rw [if_pos (List.isPrefixOf_iff_prefix.mpr ⟨v, by simp⟩)]
      congr 1
      rw [show (c :: ks) ++ '=' :: v = ((c :: ks) ++ ['=']) ++ v from by simp,
        show (c :: ks).length + 1 = ((c :: ks) ++ ['=']).length from by simp]
      exact List.drop_left _ _
    · rw [if_neg hm]
      simp only [envLookup]
      rw [if_neg (fun hr => hm (raw_match_strip_match hc hr))]
      exact ih

lemma envLookup_setOrReplace_other {key key2 v : List Char}
    (hne : ∀ line, (key2 ++ ['=']).isPrefixOf (pyStrip line) = true →
      (key ++ ['=']).isPrefixOf line = false)
    (hnew : (key ++ ['=']).isPrefixOf (key2 ++ '=' :: v) = false)
    (lines : List (List Char)) :
    envLookup (setOrReplace lines key2 v) key = envLookup lines key := by
  induction lines with
  | nil =>
    simp only [setOrReplace, envLookup]
    rw [if_neg (by rw [hnew]; decide)]
  | cons line rest ih =>
    simp only [setOrReplace]
    by_cases hm : (key2 ++ ['=']).isPrefixOf (pyStrip line) = true
    · rw [if_pos hm]
      simp only [envLookup]
      rw [if_neg (by rw [hnew]; decide), if_neg (by rw [hne line hm]; decide)]
    · rw [if_neg hm]
      simp only [envLookup]
      by_cases hr : (key ++ ['=']).isPrefixOf line = true
      · rw [if_pos hr, if_pos hr]
      · rw [if_neg hr, if_neg hr]
        exact ih

lemma filter_setOrReplace (lines : List (List Char)) (key v : List Char)
    (p : List Char → Bool)
    (hrepl : ∀ line, (key ++ ['=']).isPrefixOf (pyStrip line) = true → p line = false)
    (hnew : p (key ++ '=' :: v) = false) :
    (setOrReplace lines key v).filter p = lines.filter p := by
  induction lines with
  | nil =>
    simp only [setOrReplace]
    rw [List.filter_cons, if_neg (by rw [hnew]; decide)]
  | cons line rest ih =>
    simp only [setOrReplace]
    by_cases hm : (key ++ ['=']).isPrefixOf (pyStrip line) = true
    · rw [if_pos hm]
      rw [List.filter_cons, List.filter_cons,
        if_neg (by rw [hnew]; decide), if_neg (by rw [hrepl line hm]; decide)]
    · rw [if_neg hm]
      rw [List.filter_cons, List.filter_cons]
      by_cases hp : p line = true
      · rw [if_pos hp, if_pos hp, ih]
      · rw [if_neg hp, if_neg hp]
        exact ih

lemma xKey_cons : xOffsetKey = 'H' :: ("ARVEY_X_OFFSET").toList := by decide

lemma yKey_cons : yOffsetKey = 'H' :: ("ARVEY_Y_OFFSET").toList := by decide

lemma yStrip_no_xRaw :
    ∀ line, (yOffsetKey ++ ['=']).isPrefixOf (pyStrip line) = true →
      (xOffsetKey ++ ['=']).isPrefixOf line = false := by
  intro line hy
  by_contra hb
  rw [Bool.not_eq_false] at hb
  have hxs : (xOffsetKey ++ ['=']).isPrefixOf (pyStrip line) = true := by
    rw [xKey_cons] at hb ⊢
    exact raw_match_strip_match (by decide) hb
  have hyf := prefix_disjoint (q := yOffsetKey ++ ['=']) hxs (by decide) (by decide)
  rw [hy] at hyf
  cases hyf

lemma xRaw_not_yLine (v : List Char) :
    (xOffsetKey ++ ['=']).isPrefixOf (yOffsetKey ++ '=' :: v) = false := by
  by_contra hb
  rw [Bool.not_eq_false] at hb
  have hyp : (yOffsetKey ++ ['=']).isPrefixOf (yOffsetKey ++ '=' :: v) = true :=
    List.isPrefixOf_iff_prefix.mpr ⟨v, by simp⟩
  have hxf := prefix_disjoint (q := xOffsetKey ++ ['=']) hyp (by decide) (by decide)
  rw [hb] at hxf
  cases hxf

lemma isOffsetLine_xval (v : List Char) :
    isOffsetLine (xOffsetKey ++ '=' :: v) = true := by
  simp only [isOffsetLine]
  have hx : (xOffsetKey ++ ['=']).isPrefixOf (pyStrip (xOffsetKey ++ '=' :: v)) = true := by
    rw [xKey_cons]
    exact raw_match_strip_match (by decide)
      (List.isPrefixOf_iff_prefix.mpr ⟨v, by simp⟩)
  rw [hx]
  simp

lemma isOffsetLine_yval (v : List Char) :
    isOffsetLine (yOffsetKey ++ '=' :: v) = true := by
  simp only [isOffsetLine]
  have hy : (yOffsetKey ++ ['=']).isPrefixOf (pyStrip (yOffsetKey ++ '=' :: v)) = true := by
    rw [yKey_cons]
    exact raw_match_strip_match (by decide)
      (List.isPrefixOf_iff_prefix.mpr ⟨v, by simp⟩)
  rw [hy]
  simp

/-- C9: saving the calibration offsets and then loading them returns
exactly the offsets saved (as the decimal strings `str(int(v))` the store
persists), and rewriting the two offset keys preserves every pre-existing
line that is not an offset-key line verbatim and in order. -/
theorem calibration_roundtrip (lines : List (List Char)) (offX offY : ℤ) :
    envLookup (writeEnvOffsets lines offX offY) xOffsetKey = some (intChars offX) ∧
    envLookup (writeEnvOffsets lines offX offY) yOffsetKey = some (intChars offY) ∧
    (writeEnvOffsets lines offX offY).filter (fun l => !(isOffsetLine l)) =
      lines.filter (fun l => !(isOffsetLine l)) := by
  unfold writeEnvOffsets
  refine ⟨?_, ?_, ?_⟩
  · rw [envLookup_setOrReplace_other yStrip_no_xRaw (xRaw_not_yLine _)]
    rw [xKey_cons]
    exact envLookup_setOrReplace (by decide) _ _
  · rw [yKey_cons]
    exact envLookup_setOrReplace (by decide) _ _
  · rw [filter_setOrReplace _ _ _ _
      (fun line hy => by simp only [isOffsetLine, hy, Bool.or_true, Bool.not_true])
      (by simp only [isOffsetLine_yval, Bool.not_true])]
    rw [filter_setOrReplace _ _ _ _
      (fun line hx => by simp only [isOffsetLine, hx, Bool.true_or, Bool.not_true])
      (by simp only [isOffsetLine_xval, Bool.not_true])]
